import Mathlib

/-!
Shallow embedding of `scraper.py` (rom-media-scraper) and proofs about its
cache key derivation, cache round-trip, checksum memoization, region
resolution, media selection, error classification and batch orchestration.

Pure helper functions are translated directly from the source; external
collaborators (the HTTP transport, the xxhash library, the filesystem) are
modelled as explicit parameters or pure stand-ins, as noted at each
definition.
-/

/-! ### Python string primitives used by the module -/

/-- Characters treated as whitespace by Python's `str.strip` (ASCII subset). -/
def isPySpace (c : Char) : Bool :=
  c == ' ' || c == '\x0b' || c == '\x0c' || c == '\t' || c == '\n' || c == '\r'

/-- Python `s.strip()`. -/
def pyStrip (s : String) : String :=
  String.mk (((s.toList.dropWhile isPySpace).reverse.dropWhile isPySpace).reverse)

/-- Python `s.lower()` (ASCII model). -/
def pyLower (s : String) : String :=
  String.mk (s.toList.map Char.toLower)

/-- Python `s.lstrip(".")`. -/
def pyLstripDot (s : String) : String :=
  String.mk (s.toList.dropWhile (· == '.'))

/-- Python `s.split(sep)` for a one-character separator, on character
lists: splits at every occurrence, keeping empty segments (so `""` yields
`[""]` and adjacent separators yield empty strings). -/
def pySplitChar (sep : Char) : List Char → List (List Char)
  | [] => [[]]
  | c :: cs =>
    match pySplitChar sep cs with
    | [] => []
    | g :: gs => if c == sep then [] :: g :: gs else (c :: g) :: gs

/-- Python `s.split(sep)` for a one-character separator. -/
def pySplit (s : String) (sep : Char) : List String :=
  (pySplitChar sep s.toList).map String.mk

/-- Model of `csv2iter` from scraper.py (with the default separator `","` and
`itemtype=str`): split text by separator, yielding each stripped element;
`None` or blank text yields nothing. -/
def csv2iter (text : Option String) : List String :=
  match text with
  | none => []
  | some t =>
    let t := pyStrip t
    if t = "" then [] else (pySplit t ',').map pyStrip

/-- Worker for `unique`: keep elements not seen before, in order. -/
def uniqueGo (seen : List String) : List String → List String
  | [] => []
  | x :: xs => if x ∈ seen then uniqueGo seen xs else x :: uniqueGo (x :: seen) xs

/-- Model of `unique` from scraper.py instantiated at strings with the default
`discard_falsy=True`: falsy elements (the empty string) are dropped, then
duplicates are removed preserving the first occurrence
(`dict.fromkeys(filter(None, iterable))`). -/
def unique (l : List String) : List String :=
  uniqueGo [] (l.filter (fun s => s ≠ ""))

/-! ### JSON values

The payloads handled by `json.dumps` / `json.loads` in scraper.py.  Numbers
are modelled as integers (all payload numbers in scope are integral). -/

inductive Json where
  | null : Json
  | bool (b : Bool) : Json
  | num (n : Int) : Json
  | str (s : String) : Json
  | arr (elems : List Json) : Json
  | obj (fields : List (String × Json)) : Json

mutual
/-- Node-count style size of a JSON value, used as a fuel bound for the
parser.  The constants give every parser step enough fuel. -/
def jsize : Json → Nat
  | .null => 1
  | .bool _ => 1
  | .num _ => 1
  | .str _ => 1
  | .arr l => 2 + jsizeList l
  | .obj l => 2 + jsizeFields l
def jsizeList : List Json → Nat
  | [] => 0
  | v :: vs => 2 + jsize v + jsizeList vs
def jsizeFields : List (String × Json) → Nat
  | [] => 0
  | kv :: kvs => 3 + jsize kv.2 + jsizeFields kvs
end

/-! ### Rendering (`json.dumps` with `separators=(",", ":")` and an
`indent` setting, as used by `pretty` in scraper.py)

Escaping is modelled for the characters `json.dumps` must escape: the
quote, the backslash, and control characters (the latter via a four-digit
unicode escape).  `ensure_ascii` transliteration of printable non-ASCII
characters only changes the on-disk spelling, not the decoded value, and is
not modelled. -/

/-- Decimal digits of `n`, most significant first. -/
def natDigits (n : Nat) : List Char :=
  if _h : n < 10 then [Nat.digitChar n]
  else natDigits (n / 10) ++ [Nat.digitChar (n % 10)]
decreasing_by exact Nat.div_lt_self (by omega) (by omega)

/-- Python `json` integer rendering. -/
def renderInt (n : Int) : List Char :=
  if n < 0 then '-' :: natDigits n.natAbs else natDigits n.natAbs

/-- Escape one character of a JSON string. -/
def escapeChar (c : Char) : List Char :=
  if c = '"' then ['\\', '"']
  else if c = '\\' then ['\\', '\\']
  else if c.toNat < 32 then
    ['\\', 'u', '0', '0', Nat.digitChar (c.toNat / 16), Nat.digitChar (c.toNat % 16)]
  else [c]

def escapeList : List Char → List Char
  | [] => []
  | c :: cs => escapeChar c ++ escapeList cs

/-- The characters of a fixed literal such as a JSON keyword. -/
def litChars (s : String) : List Char := s.toList

/-- Quoted, escaped JSON string literal. -/
def renderString (s : String) : List Char :=
  '"' :: (escapeList s.toList ++ ['"'])

/-- Newline plus indentation, as emitted by `json.dumps` with `indent=iw`
at nesting level `lvl`. -/
def nlIndent (iw lvl : Nat) : List Char :=
  '\n' :: List.replicate (iw * lvl) ' '

mutual
/-- Characters of `json.dumps(v, separators=(",", ":"), indent=iw)` at
nesting level `ind` (without key sorting; see `sortJson`). -/
def render (iw ind : Nat) : Json → List Char
  | .null => litChars "null"
  | .bool true => litChars "true"
  | .bool false => litChars "false"
  | .num n => renderInt n
  | .str s => renderString s
  | .arr [] => ['[', ']']
  | .arr (v :: vs) =>
      '[' :: (nlIndent iw (ind + 1) ++ render iw (ind + 1) v ++
        renderArrTail iw (ind + 1) vs ++ nlIndent iw ind ++ [']'])
  | .obj [] => ['{', '}']
  | .obj (kv :: kvs) =>
      '{' :: (nlIndent iw (ind + 1) ++ renderField iw (ind + 1) kv ++
        renderObjTail iw (ind + 1) kvs ++ nlIndent iw ind ++ ['}'])
def renderField (iw ind : Nat) : String × Json → List Char
  | (k, v) => renderString k ++ (':' :: render iw ind v)
def renderArrTail (iw ind : Nat) : List Json → List Char
  | [] => []
  | v :: vs => ',' :: (nlIndent iw ind ++ render iw ind v ++ renderArrTail iw ind vs)
def renderObjTail (iw ind : Nat) : List (String × Json) → List Char
  | [] => []
  | kv :: kvs => ',' :: (nlIndent iw ind ++ renderField iw ind kv ++ renderObjTail iw ind kvs)
end

/-- Comparison on object fields used by `json.dumps(..., sort_keys=True)`:
keys compare as strings. -/
def keyLe (a b : String × Json) : Bool := decide (a.1 ≤ b.1)

mutual
/-- Recursively sort every object's fields by key.  Rendering the result of
`sortJson` models `json.dumps(..., sort_keys=True)`. -/
def sortJson : Json → Json
  | .null => .null
  | .bool b => .bool b
  | .num n => .num n
  | .str s => .str s
  | .arr l => .arr (sortJsonList l)
  | .obj l => .obj (List.mergeSort (sortJsonFields l) keyLe)
def sortJsonList : List Json → List Json
  | [] => []
  | v :: vs => sortJson v :: sortJsonList vs
def sortJsonFields : List (String × Json) → List (String × Json)
  | [] => []
  | kv :: kvs => (kv.1, sortJson kv.2) :: sortJsonFields kvs
end

/-- Model of `pretty` from scraper.py:
`json.dumps(obj, separators=(",", ":"), default=str, sort_keys=sortKeys, indent=indent)`,
modelled for `Json` payloads. -/
def pretty (obj : Json) (indent : Nat) (sortKeys : Bool) : String :=
  String.mk (render indent 0 (if sortKeys then sortJson obj else obj))

/-- Model of `xxhash.xxh3_128_hexdigest`.  The hash library is external to
the repository; it is modelled as a fixed pure function of the input string
(the program relies only on determinism and on functional dependence on the
rendered text). -/
def xxh3Model (s : String) : Nat :=
  s.toList.foldl (fun h c => (h * 1099511628211 + c.toNat) % (2 ^ 128)) 14695981039346656037

/-- Lowercase hexadecimal digits of `n`, most significant first. -/
def natToHexLower (n : Nat) : List Char :=
  if _h : n < 16 then [Nat.digitChar n]
  else natToHexLower (n / 16) ++ [Nat.digitChar (n % 16)]
decreasing_by exact Nat.div_lt_self (by omega) (by omega)

/-- Model of `hashobj` from scraper.py:
`xxhash.xxh3_128_hexdigest(pretty(obj, indent=1, sort_keys=True))`. -/
def hashobj (obj : Json) : String :=
  String.mk (natToHexLower (xxh3Model (pretty obj 1 true)))

/-! ### Parsing (`json.loads`)

A standard recursive-descent JSON parser over character lists, used to model
`json.loads` in `CachedResource.read`.  The mutual family is fuelled; the
fuel is instantiated with the input length plus one, which suffices (see
`jsize_le_length_render`). -/

def isJsonWs (c : Char) : Bool :=
  c == '\t' || c == '\n' || c == '\r' || c == ' '

def skipWs : List Char → List Char
  | [] => []
  | c :: cs => if isJsonWs c then skipWs cs else c :: cs

/-- Value of a hexadecimal digit character. -/
def hexVal? (c : Char) : Option Nat :=
  if '0' ≤ c ∧ c ≤ '9' then some (c.toNat - 48)
  else if 'a' ≤ c ∧ c ≤ 'f' then some (c.toNat - 87)
  else if 'A' ≤ c ∧ c ≤ 'F' then some (c.toNat - 55)
  else none

/-- Parse the body of a string literal (after the opening quote), with the
accumulated characters reversed in `acc`. -/
def parseStrAux (acc : List Char) : List Char → Option (String × List Char)
  | [] => none
  | c :: rest =>
    if c = '"' then some (String.mk acc.reverse, rest)
    else if c = '\\' then
      match rest with
      | '"' :: r => parseStrAux ('"' :: acc) r
      | '\\' :: r => parseStrAux ('\\' :: acc) r
      | 'u' :: h1 :: h2 :: h3 :: h4 :: r =>
        match hexVal? h1, hexVal? h2, hexVal? h3, hexVal? h4 with
        | some a, some b, some c', some d =>
          parseStrAux (Char.ofNat (((a * 16 + b) * 16 + c') * 16 + d) :: acc) r
        | _, _, _, _ => none
      | _ => none
    else parseStrAux (c :: acc) rest

/-- Consume a run of decimal digits, accumulating their value. -/
def parseNatAux (acc : Nat) : List Char → Nat × List Char
  | [] => (acc, [])
  | c :: rest =>
    if c.isDigit then parseNatAux (acc * 10 + (c.toNat - 48)) rest
    else (acc, c :: rest)

mutual
def parseVal : Nat → List Char → Option (Json × List Char)
  | 0, _ => none
  | fuel + 1, cs0 =>
    match skipWs cs0 with
    | [] => none
    | c :: cs =>
      if c = 'n' then
        match cs with
        | 'u' :: 'l' :: 'l' :: rest => some (.null, rest)
        | _ => none
      else if c = 't' then
        match cs with
        | 'r' :: 'u' :: 'e' :: rest => some (.bool true, rest)
        | _ => none
      else if c = 'f' then
        match cs with
        | 'a' :: 'l' :: 's' :: 'e' :: rest => some (.bool false, rest)
        | _ => none
      else if c = '"' then
        match parseStrAux [] cs with
        | some (s, r) => some (.str s, r)
        | none => none
      else if c = '[' then
        match skipWs cs with
        | [] => none
        | d :: ds =>
          if d = ']' then some (.arr [], ds)
          else
            match parseVal fuel (d :: ds) with
            | some (v, r3) =>
              match parseArrTail fuel r3 with
              | some (vs, r4) => some (.arr (v :: vs), r4)
              | none => none
            | none => none
      else if c = '{' then
        match skipWs cs with
        | [] => none
        | d :: ds =>
          if d = '}' then some (.obj [], ds)
          else
            match parseFieldAux fuel (d :: ds) with
            | some (kv, r3) =>
              match parseObjTail fuel r3 with
              | some (kvs, r4) => some (.obj (kv :: kvs), r4)
              | none => none
            | none => none
      else if c = '-' then
        match cs with
        | [] => none
        | d :: ds =>
          if d.isDigit then
            match parseNatAux (d.toNat - 48) ds with
            | (n, r) => some (.num (-(n : Int)), r)
          else none
      else if c.isDigit then
        match parseNatAux (c.toNat - 48) cs with
        | (n, r) => some (.num (n : Int), r)
      else none
def parseArrTail : Nat → List Char → Option (List Json × List Char)
  | 0, _ => none
  | fuel + 1, cs0 =>
    match skipWs cs0 with
    | [] => none
    | c :: cs =>
      if c = ']' then some ([], cs)
      else if c = ',' then
        match parseVal fuel cs with
        | some (v, r2) =>
          match parseArrTail fuel r2 with
          | some (vs, r3) => some (v :: vs, r3)
          | none => none
        | none => none
      else none
def parseFieldAux : Nat → List Char → Option ((String × Json) × List Char)
  | 0, _ => none
  | fuel + 1, cs0 =>
    match skipWs cs0 with
    | [] => none
    | c :: cs =>
      if c = '"' then
        match parseStrAux [] cs with
        | some (k, r2) =>
          (match skipWs r2 with
           | [] => none
           | d :: ds =>
             if d = ':' then
               match parseVal fuel ds with
               | some (v, r4) => some ((k, v), r4)
               | none => none
             else none)
        | none => none
      else none
def parseObjTail : Nat → List Char → Option (List (String × Json) × List Char)
  | 0, _ => none
  | fuel + 1, cs0 =>
    match skipWs cs0 with
    | [] => none
    | c :: cs =>
      if c = '}' then some ([], cs)
      else if c = ',' then
        match parseFieldAux fuel cs with
        | some (kv, r2) =>
          match parseObjTail fuel r2 with
          | some (kvs, r3) => some (kv :: kvs, r3)
          | none => none
        | none => none
      else none
end

/-- The remaining input does not start with a decimal digit (so a number
parse that stops there consumes exactly the rendered digits). -/
def headNonDigit : List Char → Prop
  | [] => True
  | c :: _ => c.isDigit = false

/-- Model of `json.loads`: parse a complete document (`none` models the
`JSONDecodeError` raised on invalid input). -/
def jsonLoads (s : String) : Option Json :=
  match parseVal (s.length + 1) s.toList with
  | some (v, rest) => if skipWs rest = [] then some v else none
  | none => none

/-! ### Error taxonomy

`ScraperError` / `ScraperResponseError` from scraper.py, together with the
exceptions of the external `requests` library that the module interacts
with.  A Python exception travelling up the stack is modelled as an
`Except .error`; exceptions that are not part of the `ScraperError` family
(raw transport errors, `AssertionError`, `KeyError`, ...) are carried by
separate constructors so that `except ScraperError` clauses can be
modelled faithfully. -/

/-- Exceptions raised by the external `requests` library. -/
inductive RequestsExc where
  | readTimeout
  | connectTimeout
  | connectionError
  | httpError
  | jsonDecodeError
deriving DecidableEq

inductive ApiError where
  /-- A plain `ScraperError` with its message, `errno` and original cause. -/
  | scraperError (msg : String) (errno : Nat) (cause : Option RequestsExc)
  /-- A `ScraperResponseError`: `errno` is the HTTP status, `body` the
  response text (`self.res.text`). -/
  | responseError (msg : String) (errno : Nat) (body : String) (cause : RequestsExc)
  /-- A `requests` exception that no `except` clause in scraper.py catches. -/
  | rawTransport (e : RequestsExc)
  /-- Any other uncaught Python-level error (`AssertionError`, `KeyError`, ...). -/
  | pyError (msg : String)
deriving DecidableEq

/-- Whether an error is of the `ScraperError` family (and hence caught by
`except ScraperError` clauses). -/
def isScraperErr : ApiError → Bool
  | .scraperError _ _ _ => true
  | .responseError _ _ _ _ => true
  | .rawTransport _ => false
  | .pyError _ => false

/-- Does `l` start with `sub`? -/
def startsWithL : List Char → List Char → Bool
  | [], _ => true
  | _ :: _, [] => false
  | c :: cs, d :: ds => c == d && startsWithL cs ds

/-- Does `sub` occur inside `l`? -/
def containsSubL (sub : List Char) : List Char → Bool
  | [] => startsWithL sub []
  | c :: cs => startsWithL sub (c :: cs) || containsSubL sub cs

/-- Python substring test, `sub in s`. -/
def containsSub (s sub : String) : Bool :=
  containsSubL sub.toList s.toList

/-! ### `CachedResource`

The filesystem is modelled as a map from paths to file contents; paths are
plain strings (`root / name` becomes string concatenation with `/`). -/

/-- Contents of a cache file: text written by `write_text` or bytes written
by `write_bytes`. -/
inductive FileContent where
  | text (s : String)
  | bin (b : List Nat)

def Fs := String → Option FileContent

def Fs.empty : Fs := fun _ => none

def Fs.update (fs : Fs) (p : String) (c : FileContent) : Fs :=
  fun q => if q = p then some c else fs q

/-- State of `CachedResource.__init__`: it stores the derived stem, the normalized type
and the optional root; the constructor arguments themselves are not kept. -/
structure CachedResource where
  stem : String
  type : String
  root : Option String

/-- Constructor `CachedResource(origin, name, params, filetype, rootdir)`:
`stem = hashobj((origin, name, params))` (a JSON array under `json.dumps`),
`type = filetype.lstrip(".").lower()`, `root = rootdir`. -/
def CachedResource.init (origin name : String) (params : Option (List (String × Json)))
    (filetype : String) (rootdir : Option String) : CachedResource :=
  { stem := hashobj (.arr [.str origin, .str name,
      (match params with | none => Json.null | some l => Json.obj l)])
    type := pyLower (pyLstripDot filetype)
    root := rootdir }

/-- Property `CachedResource.name`: the stem with the type suffix. -/
def CachedResource.name (c : CachedResource) : String :=
  if c.type = "" then c.stem else c.stem ++ "." ++ c.type

/-- Property `CachedResource.path`. -/
def CachedResource.path (c : CachedResource) : Option String :=
  match c.root with
  | none => none
  | some r => some (r ++ "/" ++ c.name)

def CachedResource.is_text (c : CachedResource) : Bool :=
  c.type == "json" || c.type == "xml" || c.type == "txt" || c.type == "html"

def CachedResource.is_json (c : CachedResource) : Bool :=
  c.type == "json"

/-- Result of `CachedResource.read`: `miss` models the `None` returned when
the root is unset or the file does not exist; `decodeError` models the
`json.JSONDecodeError` raised on a corrupt JSON entry (or reading a file
whose stored kind does not match the declared type, which cannot arise
through `write`). -/
inductive ReadResult where
  | miss
  | jsonData (v : Json)
  | textData (s : String)
  | binData (b : List Nat)
  | decodeError

def CachedResource.read (c : CachedResource) (fs : Fs) : ReadResult :=
  match c.path with
  | none => .miss
  | some p =>
    match fs p with
    | none => .miss
    | some content =>
      if c.is_text then
        match content with
        | .text s =>
          if c.is_json then
            match jsonLoads s with
            | some v => .jsonData v
            | none => .decodeError
          else .textData s
        | .bin _ => .decodeError
      else
        match content with
        | .bin b => .binData b
        | .text _ => .decodeError

/-- Payload handed to `CachedResource.write` (`str | bytes` in the source
signature; the JSON branch actually receives the decoded envelope object,
cf. `cache.write(out)` in `api_call`). -/
inductive CacheData where
  | jsonVal (v : Json)
  | strVal (s : String)
  | binVal (b : List Nat)

def CachedResource.write (c : CachedResource) (fs : Fs) (data : CacheData) : Fs :=
  match c.path with
  | none => fs
  | some p =>
    if c.is_json then
      match data with
      | .jsonVal v => fs.update p (.text (pretty v 2 false))
      | .strVal s => fs.update p (.text (pretty (.str s) 2 false))
      | .binVal _ => fs
    else if c.is_text then
      match data with
      | .strVal s => fs.update p (.text s)
      | _ => fs
    else
      match data with
      | .binVal b => fs.update p (.bin b)
      | _ => fs

/-! ### `Rom` -/

def CHUNK_SIZE : Nat := 64 * 2 ^ 10

/-- One round of the CRC-32 shift register (reflected polynomial, as in
zlib). -/
def crc32Round (c : Nat) : Nat :=
  if c % 2 = 1 then (c / 2) ^^^ 0xEDB88320 else c / 2

def crc32Byte (c b : Nat) : Nat :=
  crc32Round^[8] (c ^^^ (b % 256))

/-- Model of `zlib.crc32(data, value)`. -/
def zlib_crc32 (data : List Nat) (value : Nat) : Nat :=
  (data.foldl crc32Byte (value ^^^ 0xFFFFFFFF)) ^^^ 0xFFFFFFFF

/-- Split a byte list into chunks of `n` bytes (the successive results of
`fd.read(n)`). -/
def chunksOf (n : Nat) (l : List Nat) : List (List Nat) :=
  if _h : n = 0 ∨ l = [] then []
  else l.take n :: chunksOf n (l.drop n)
termination_by l.length
decreasing_by
  push_neg at _h
  have hlen : 0 < l.length := List.length_pos.mpr _h.2
  simp only [List.length_drop]
  omega

/-- Uppercase hexadecimal digit. -/
def hexDigitUpper (n : Nat) : Char :=
  if n < 10 then Nat.digitChar n else Char.ofNat (55 + n)

/-- Uppercase hexadecimal digits of `n`, most significant first. -/
def natToHexUpper (n : Nat) : List Char :=
  if _h : n < 16 then [hexDigitUpper n]
  else natToHexUpper (n / 16) ++ [hexDigitUpper (n % 16)]
decreasing_by exact Nat.div_lt_self (by omega) (by omega)

/-- Python fixed-width uppercase hexadecimal formatting (format spec 08X) for `n < 2^32`. -/
def hex8upper (n : Nat) : String :=
  String.mk (List.replicate (8 - (natToHexUpper n).length) '0' ++ natToHexUpper n)

/-- Model of `Rom`: the underlying file is modelled by its byte `content`; `crc32Memo`
is the `_crc32` attribute, initially empty. -/
structure Rom where
  path : String
  content : List Nat
  crc32Memo : String
deriving DecidableEq

/-- Constructor `Rom.__init__`. -/
def Rom.init (path : String) (content : List Nat) : Rom :=
  { path := path, content := content, crc32Memo := "" }

/-- Property `Rom.crc32`.  Returns the checksum string, the updated
instance, and the number of times the file was opened and streamed by this
call (the read-count probe): `1` when the checksum is computed, `0` on a
memoized hit. -/
def Rom.crc32 (r : Rom) : String × Rom × Nat :=
  if r.crc32Memo ≠ "" then (r.crc32Memo, r, 0)
  else
    let crc := (chunksOf CHUNK_SIZE r.content).foldl (fun c chunk => zlib_crc32 chunk c) 0
    let s := hex8upper (crc &&& 0xFFFFFFFF)
    (s, { r with crc32Memo := s }, 1)

/-! ### `System` -/

/-- The fields of the remote `SystemData` payload used by `System.__init__`
(the unused `medias` list is omitted). -/
structure SystemData where
  id : Nat
  noms : List (String × String)
  extensions : Option String
  compagnie : Option String
deriving DecidableEq

/-- Attributes of `System`.  Python `set`s are modelled as lists: only
membership is ever used, so duplication is irrelevant. -/
structure System where
  data : SystemData
  id : Nat
  name : String
  suffixes : List String
  manufacturer : String
  paths : List String
  names : List String
deriving DecidableEq

/-- Constructor `System.__init__(data)`. -/
def System.init (d : SystemData) : System :=
  { data := d
    id := d.id
    name := (d.noms.lookup "nom_eu").getD ""
    suffixes := (csv2iter (some (d.extensions.getD ""))).map (fun e => "." ++ e)
    manufacturer := d.compagnie.getD ""
    paths := ((d.noms.map Prod.snd).foldr (fun s acc => csv2iter (some s) ++ acc) []).map pyLower
    names := unique (["eu", "us", "jp"].map (fun r => (d.noms.lookup ("nom_" ++ r)).getD "")) }

/-- Model of `ScreenScraper.find_system_by_dir`, given the built system catalog and
the directory name (`path.name` of the directory). -/
def find_system_by_dir (systems : List System) (dirname : String) : Option System :=
  systems.find? (fun sys => sys.paths.contains (pyLower dirname))

/-! ### Remote game payloads (`GameInfoData`) -/

structure GameInfoSystemData where
  id : String
  text : String
deriving DecidableEq

structure NameEntry where
  region : String
  text : String
deriving DecidableEq

structure MediaEntry where
  type : String
  region : String
  format : String
  url : String
deriving DecidableEq

structure GameInfoRomData where
  id : String
  romfilename : String
  romregions : String
deriving DecidableEq

structure GameInfoData where
  id : String
  systeme : GameInfoSystemData
  noms : List NameEntry
  medias : List MediaEntry
  rom : GameInfoRomData
deriving DecidableEq

/-! ### `ScreenScraper` methods

Network effects are parameters: `api_call` takes the outcome of
`requests.get`, and the orchestration methods take the outcome of the
remote lookup for each file. -/

/-- Outcome of the `requests.get` call inside `api_call`: either an
exception from the transport, or a response with its HTTP status, body
text, and — when the body is valid JSON — the decoded value
(`res.json()`). -/
inductive HttpAttempt where
  | exc (e : RequestsExc)
  | response (status : Nat) (body : String) (jsonBody : Option Json)

/-- Python `int(s)` on a (nonnegative) numeric string: `none` models the
`ValueError` raised on a non-numeric literal. -/
def pyIntOfString (s : String) : Option Nat :=
  match s.toList with
  | [] => none
  | l =>
    if l.all Char.isDigit then some (l.foldl (fun n c => n * 10 + (c.toNat - 48)) 0)
    else none

/-- Extraction of the `response` field from a decoded envelope; a missing key or a non-object
envelope raises an uncaught Python error. -/
def envelopeResponse (out : Json) : Except ApiError Json :=
  match out with
  | .obj fields =>
    match fields.lookup "response" with
    | some r => Except.ok r
    | none => Except.error (.pyError "KeyError: response")
  | _ => Except.error (.pyError "TypeError: envelope is not an object")

/-- Model of `ScreenScraper.api_call(endpoint, **params)` for an instance with the
given origin (`self.source`) and cache root.  Returns the result together
with the possibly-updated cache filesystem.

The `try` around `requests.get` catches exactly
`requests.exceptions.ReadTimeout` and wraps it in a plain `ScraperError`
(no `errno`, original exception as cause); every other transport exception
(including `ConnectTimeout`) propagates raw.  A non-2xx status makes
`raise_for_status` raise: a 403 whose body carries the
developer-credentials marker gets a dedicated message, any other status a
generic one, both as `ScraperResponseError`.  A 2xx body that is not valid
JSON raises the malformed-JSON `ScraperError`.  On success the whole
envelope is written to the cache and the inner `response` field returned. -/
def api_call (origin endpoint : String) (params : List (String × Json))
    (rootdir : Option String) (fs : Fs) (attempt : HttpAttempt) :
    Except ApiError Json × Fs :=
  let cache := CachedResource.init origin endpoint (some params) "json" rootdir
  match cache.read fs with
  | .jsonData env => (envelopeResponse env, fs)
  | .decodeError => (Except.error (.pyError "json.JSONDecodeError"), fs)
  | .textData _ => (Except.error (.pyError "unreachable: json entry read as text"), fs)
  | .binData _ => (Except.error (.pyError "unreachable: json entry read as bytes"), fs)
  | .miss =>
    match attempt with
    | .exc .readTimeout =>
      (Except.error (.scraperError "ReadTimeout" 0 (some .readTimeout)), fs)
    | .exc e => (Except.error (.rawTransport e), fs)
    | .response status body jsonBody =>
      if 400 ≤ status then
        if status = 403 ∧ containsSub (pyStrip body) "identifiants développeur" then
          (Except.error (.responseError "Invalid developer credentials" status body .httpError), fs)
        else
          (Except.error (.responseError "HTTP error" status body .httpError), fs)
      else
        match jsonBody with
        | none =>
          (Except.error (.scraperError ("Malformed JSON: " ++ body) 0 (some .jsonDecodeError)), fs)
        | some out => (envelopeResponse out, cache.write fs (.jsonVal out))

/-- Diagnostic message of the not-found `ScraperError` raised by
`find_game` (`"%r for %r not found in %s database."`); the `%r` renderings
of the rom and system are modelled by their identifying path and name. -/
def notFoundMsg (rom : Rom) (system : System) (source : String) : String :=
  rom.path ++ " for " ++ system.name ++ " not found in " ++ source ++ " database."

/-- Model of `ScreenScraper.find_game(system, rom)`, parametrized by the outcome of
`self.api_game_info(...)`.  Only `ScraperResponseError` is caught: on a 404
whose stripped body contains the not-found marker it is re-raised as a
plain `ScraperError` naming the rom and system (cause `err=e.err`
preserved); otherwise the bare `raise` rethrows the original error. -/
def find_game (source : String) (system : System) (rom : Rom)
    (apiResult : Except ApiError GameInfoData) : Except ApiError GameInfoData :=
  match apiResult with
  | Except.ok info => Except.ok info
  | Except.error (.responseError msg errno body cause) =>
    if errno = 404 ∧ containsSub (pyStrip body) "non trouvée" then
      Except.error (.scraperError (notFoundMsg rom system source) 0 (some cause))
    else Except.error (.responseError msg errno body cause)
  | Except.error e => Except.error e

/-- The region sequence iterated by `ScreenScraper._game_name`:
`unique(itertools.chain(game["rom"]["romregions"].split(","), ("wor", "ss", "eu")))`. -/
def regionSeq (romregions : String) : List String :=
  unique (pySplit romregions ',' ++ ["wor", "ss", "eu"])

/-- The nested `for` loops of `_game_name`: for each region in sequence,
return the text of the first name entry with that region. -/
def gameNameLoop (noms : List NameEntry) : List String → Option String
  | [] => none
  | r :: rs =>
    match noms.find? (fun nm => nm.region == r) with
    | some nm => some nm.text
    | none => gameNameLoop noms rs

/-- Model of `ScreenScraper._game_name(game)`. -/
def game_name (game : GameInfoData) : Except ApiError String :=
  match gameNameLoop game.noms (regionSeq game.rom.romregions) with
  | some n => Except.ok n
  | none =>
    Except.error (.scraperError ("Unknown game region " ++ game.rom.romregions) 0 none)

/-- The media loop of `download_rom_media`, including the unconditional
`if True: return True` branch that precedes the real type/region test; the
`for`'s `else` clause logs and returns `False`. -/
def mediaScan (media_type : String) (rom_regions : List String) : List MediaEntry → Bool
  | [] => false
  | m :: ms =>
    if true then true
    else if m.type = media_type ∧ rom_regions.contains m.region then true
    else mediaScan media_type rom_regions ms

/-- Model of `ScreenScraper.download_rom_media(system, rom, save_path, media_type)`,
parametrized by the outcome of the remote lookup inside `find_game`.
The `assert system.id == int(game["systeme"]["id"])` is modelled by the
corresponding uncaught Python errors. -/
def download_rom_media (source : String) (system : System) (rom : Rom)
    (media_type : String) (apiResult : Except ApiError GameInfoData) :
    Except ApiError Bool :=
  match find_game source system rom apiResult with
  | Except.error e => Except.error e
  | Except.ok game =>
    match pyIntOfString game.systeme.id with
    | none => Except.error (.pyError "ValueError: invalid literal for int()")
    | some sid =>
      if system.id ≠ sid then Except.error (.pyError "AssertionError")
      else
        let rom_regions := pySplit game.rom.romregions ','
        match game_name game with
        | Except.error e => Except.error e
        | Except.ok _gname =>
          if game.medias = [] then Except.ok false
          else Except.ok (mediaScan media_type rom_regions game.medias)

/-! ### `download_media` (batch orchestration)

The walk of `iter_files(paths, yield_dirs=True)` is modelled by its output:
a list of directory and file entries.  A file carries its path and its
`pathlib` suffix.  The per-file call to `download_rom_media` involves the
network and is modelled by an oracle from the current system and file to
its outcome. -/

structure FileRec where
  path : String
  suffix : String
deriving DecidableEq

inductive Entry where
  | dir (name : String)
  | file (f : FileRec)
deriving DecidableEq

/-- Loop body state of `download_media`: current system context and the
`num_media` / `num_rom` counters.  An uncaught (non-`ScraperError`) raise
aborts the walk with that error; otherwise the final counters are
reported. -/
def download_media_go (systems : List System)
    (oracle : System → FileRec → Except ApiError Bool) :
    Option System × Nat × Nat → List Entry → Except ApiError (Nat × Nat)
  | (_, nm, nr), [] => Except.ok (nm, nr)
  | (_, nm, nr), Entry.dir d :: es =>
    download_media_go systems oracle (find_system_by_dir systems d, nm, nr) es
  | (sys?, nm, nr), Entry.file f :: es =>
    match sys? with
    | none => download_media_go systems oracle (none, nm, nr) es
    | some sys =>
      if sys.suffixes.contains f.suffix then
        match oracle sys f with
        | Except.ok b =>
          download_media_go systems oracle (some sys, (if b then nm + 1 else nm), nr + 1) es
        | Except.error e =>
          if isScraperErr e then download_media_go systems oracle (some sys, nm, nr + 1) es
          else Except.error e
      else download_media_go systems oracle (some sys, nm, nr) es

/-- Model of `ScreenScraper.download_media(paths, media_type, save_path)` over the
walked entries, reporting `(num_media, num_rom)`. -/
def download_media (systems : List System)
    (oracle : System → FileRec → Except ApiError Bool) (entries : List Entry) :
    Except ApiError (Nat × Nat) :=
  download_media_go systems oracle (none, 0, 0) entries

deriving instance DecidableEq for Except

/-- An uppercase hexadecimal digit character (`0`-`9`, `A`-`F`), the
alphabet of Python's `"%08X"` formatting. -/
def isUpperHexChar (c : Char) : Bool :=
  c.isDigit || ('A' ≤ c && c ≤ 'F')

/-! ## Helper lemmas -/

theorem uniqueGo_mem_sub : ∀ (l seen : List String) (x : String), x ∈ uniqueGo seen l → x ∈ l := by
  intro l
  induction l with
  | nil => intro seen x h; simp [uniqueGo] at h
  | cons a as ih =>
    intro seen x h
    by_cases ha : a ∈ seen
    · simp only [uniqueGo, if_pos ha] at h
      exact List.mem_cons_of_mem _ (ih seen x h)
    · simp only [uniqueGo, if_neg ha, List.mem_cons] at h
      rcases h with h | h
      · exact h ▸ List.mem_cons_self _ _
      · exact List.mem_cons_of_mem _ (ih _ x h)

theorem uniqueGo_not_mem_seen : ∀ (l seen : List String) (x : String),
    x ∈ uniqueGo seen l → x ∉ seen := by
  intro l
  induction l with
  | nil => intro seen x h; simp [uniqueGo] at h
  | cons a as ih =>
    intro seen x h
    by_cases ha : a ∈ seen
    · simp only [uniqueGo, if_pos ha] at h
      exact ih seen x h
    · simp only [uniqueGo, if_neg ha, List.mem_cons] at h
      rcases h with h | h
      · exact h ▸ ha
      · intro hx
        exact ih _ x h (List.mem_cons_of_mem _ hx)

theorem uniqueGo_nodup : ∀ (l seen : List String), (uniqueGo seen l).Nodup := by
  intro l
  induction l with
  | nil => intro seen; simp [uniqueGo]
  | cons a as ih =>
    intro seen
    by_cases ha : a ∈ seen
    · simpa only [uniqueGo, if_pos ha] using ih seen
    · simp only [uniqueGo, if_neg ha]
      refine List.Nodup.cons ?_ (ih _)
      intro hmem
      exact uniqueGo_not_mem_seen _ _ _ hmem (List.mem_cons_self _ _)

theorem unique_nodup (l : List String) : (unique l).Nodup :=
  uniqueGo_nodup _ _

theorem unique_not_mem_empty (l : List String) : "" ∉ unique l := by
  intro h
  have hmem := uniqueGo_mem_sub _ _ _ h
  have := (List.mem_filter.mp hmem).2
  simp at this

theorem gameNameLoop_eq_findSome (rs : List String) (noms : List NameEntry) :
    gameNameLoop noms rs =
      rs.findSome? (fun r => (noms.find? (fun nm => nm.region == r)).map (fun nm => nm.text)) := by
  induction rs with
  | nil => rfl
  | cons r rs ih =>
    simp only [gameNameLoop, List.findSome?_cons]
    cases h : noms.find? (fun nm => nm.region == r) with
    | none => simpa [h] using ih
    | some nm => simp [h]

/-! ## Claims -/

/-- Claim C10: the region sequence tried by `_game_name` silently discards
falsy elements: empty strings produced by comma-splitting `romregions`
(empty `romregions`, consecutive or trailing commas) are dropped before
iteration — for an empty `romregions` the regions tried are exactly
`"wor"`, `"ss"`, `"eu"` — and any duplicated region is tried only once. -/
theorem regionSeq_discards_falsy :
    (∀ s : String, "" ∉ regionSeq s ∧ (regionSeq s).Nodup) ∧
    regionSeq "" = ["wor", "ss", "eu"] ∧
    regionSeq "us,,eu," = ["us", "eu", "wor", "ss"] :=
  ⟨fun _ => ⟨unique_not_mem_empty _, unique_nodup _⟩, by decide, by decide⟩

/-- Claim C3: `_game_name` iterates the rom's reported regions in order
followed by the fallback sequence `"wor"`, `"ss"`, `"eu"` (deduplicated
preserving order, cf. `regionSeq`), returns the localized name of the first
region with a matching name entry, and fails with the `ScraperError` citing
the unresolved region set when none matches; in particular for rom regions
`"us,eu"` and names only for `"eu"` it returns the `"eu"` entry. -/
theorem game_name_region_resolution :
    (∀ g : GameInfoData,
      game_name g =
        match (regionSeq g.rom.romregions).findSome?
            (fun r => (g.noms.find? (fun nm => nm.region == r)).map (fun nm => nm.text)) with
        | some n => Except.ok n
        | none =>
          Except.error
            (.scraperError ("Unknown game region " ++ g.rom.romregions) 0 none)) ∧
    game_name ⟨"1", ⟨"4", "N64"⟩, [⟨"eu", "Zelda EU"⟩], [], ⟨"9", "zelda.n64", "us,eu"⟩⟩ =
      Except.ok "Zelda EU" := by
  constructor
  · intro g
    simp only [game_name, gameNameLoop_eq_findSome]
  · decide

/-- Claim C4: `find_game` re-raises the error from the game lookup as the
not-found `ScraperError` naming the rom and system exactly when it is a
`ScraperResponseError` with HTTP status 404 whose body contains the
`"non trouvée"` marker; a 404 without the marker, and every other error,
propagates unchanged. -/
theorem find_game_404_remap :
    (∀ (source : String) (system : System) (rom : Rom) (msg : String) (errno : Nat)
        (body : String) (cause : RequestsExc),
      errno = 404 → containsSub (pyStrip body) "non trouvée" = true →
      find_game source system rom (Except.error (.responseError msg errno body cause)) =
        Except.error (.scraperError (notFoundMsg rom system source) 0 (some cause))) ∧
    (∀ (source : String) (system : System) (rom : Rom) (msg : String) (errno : Nat)
        (body : String) (cause : RequestsExc),
      ¬(errno = 404 ∧ containsSub (pyStrip body) "non trouvée" = true) →
      find_game source system rom (Except.error (.responseError msg errno body cause)) =
        Except.error (.responseError msg errno body cause)) ∧
    (∀ (source : String) (system : System) (rom : Rom) (e : ApiError),
      (∀ msg errno body cause, e ≠ ApiError.responseError msg errno body cause) →
      find_game source system rom (Except.error e) = Except.error e) ∧
    (∀ (source : String) (system : System) (rom : Rom) (info : GameInfoData),
      find_game source system rom (Except.ok info) = Except.ok info) := by
  refine ⟨?_, ?_, ?_, ?_⟩
  · intro source system rom msg errno body cause h404 hmark
    simp [find_game, h404, hmark]
  · intro source system rom msg errno body cause hneg
    simp only [find_game, if_neg hneg]
  · intro source system rom e hne
    cases e with
    | responseError msg errno body cause => exact absurd rfl (hne msg errno body cause)
    | scraperError msg errno cause => rfl
    | rawTransport ex => rfl
    | pyError msg => rfl
  · intro source system rom info
    rfl

/-- Witness for C4: the 404 with the marker body is re-raised as the
not-found error at a concrete input. -/
theorem find_game_404_remap_witness :
    find_game "ScreenScraper" (System.init ⟨4, [("nom_eu", "Nintendo 64")], none, none⟩)
        (Rom.init "roms/n64/zelda.n64" [])
        (Except.error (.responseError "404 Client Error" 404
          "Erreur : Rom/Iso/Dossier non trouvée !  " .httpError)) =
      Except.error (.scraperError
        (notFoundMsg (Rom.init "roms/n64/zelda.n64" [])
          (System.init ⟨4, [("nom_eu", "Nintendo 64")], none, none⟩) "ScreenScraper")
        0 (some .httpError)) :=
  find_game_404_remap.1 "ScreenScraper" _ _ "404 Client Error" 404 _ .httpError rfl (by decide)

/-- Claim C9: a `System` built from data whose `extensions` field is absent,
empty or whitespace-only has an empty suffix set, and during
`download_media` every file under such a system is skipped as a non-ROM
file without being counted. -/
theorem empty_extensions_system (d : SystemData)
    (h : d.extensions = none ∨ pyStrip (d.extensions.getD "") = "") :
    (System.init d).suffixes = [] ∧
    ∀ (systems : List System) (oracle : System → FileRec → Except ApiError Bool)
      (f : FileRec) (nm nr : Nat) (es : List Entry),
      download_media_go systems oracle (some (System.init d), nm, nr) (Entry.file f :: es) =
        download_media_go systems oracle (some (System.init d), nm, nr) es := by
  have hext : csv2iter (some (d.extensions.getD "")) = [] := by
    rcases h with h | h
    · rw [h]; rfl
    · simp [csv2iter, h]
  have hs : (System.init d).suffixes = [] := by
    simp [System.init, hext]
  refine ⟨hs, ?_⟩
  intro systems oracle f nm nr es
  simp [download_media_go, hs]

/-- Witness for C9: a whitespace-only `extensions` field gives an empty
suffix set and a file under that system is skipped without counting. -/
theorem empty_extensions_system_witness :
    (System.init ⟨7, [("nom_eu", "Thing")], some "   ", none⟩).suffixes = [] ∧
    download_media_go [] (fun _ _ => Except.ok false)
        (some (System.init ⟨7, [("nom_eu", "Thing")], some "   ", none⟩), 0, 0)
        [Entry.file ⟨"x.n64", ".n64"⟩] =
      download_media_go [] (fun _ _ => Except.ok false)
        (some (System.init ⟨7, [("nom_eu", "Thing")], some "   ", none⟩), 0, 0) [] :=
  ⟨(empty_extensions_system _ (Or.inr (by decide))).1,
   (empty_extensions_system _ (Or.inr (by decide))).2 [] (fun _ _ => Except.ok false)
     ⟨"x.n64", ".n64"⟩ 0 0 []⟩

theorem download_media_go_files (systems : List System)
    (oracle : System → FileRec → Except ApiError Bool) (sys : System)
    (herr : ∀ f e, oracle sys f = Except.error e → isScraperErr e = true) :
    ∀ (files : List FileRec) (nm nr : Nat),
      download_media_go systems oracle (some sys, nm, nr) (files.map Entry.file) =
        Except.ok
          (nm + (files.filter (fun f => sys.suffixes.contains f.suffix)).countP
              (fun f => decide (oracle sys f = Except.ok true)),
           nr + (files.filter (fun f => sys.suffixes.contains f.suffix)).length) := by
  intro files
  induction files with
  | nil => intro nm nr; simp [download_media_go]
  | cons f fs ih =>
    intro nm nr
    by_cases hsuf : sys.suffixes.contains f.suffix
    · cases hor : oracle sys f with
      | ok b =>
        cases b
        · simp only [List.map_cons, download_media_go, hsuf, if_true, hor, ih,
            List.filter_cons, List.countP_cons]
          simp [hor]
          omega
        · simp only [List.map_cons, download_media_go, hsuf, if_true, hor, ih,
            List.filter_cons, List.countP_cons]
          simp [hor]
          omega
      | error e =>
        have hse := herr f e hor
        simp only [List.map_cons, download_media_go, hsuf, if_true, hor, hse, ih,
          List.filter_cons, List.countP_cons]
        simp [hor]
        omega
    · simp only [List.map_cons, download_media_go, hsuf, if_false, ih,
        List.filter_cons]
      simp [hsuf]

/-- Claim C2 (amended): over a batch headed by a directory that resolves to
a system, when every per-file failure is of the `ScraperError` family
(business-logic errors), `download_media` counts as attempted exactly the
files whose suffix is in the system's extension set, counts as successes
those for which the per-file download returns `true`, and completes with
those counters — no such failure aborts the batch.  (A failure outside the
`ScraperError` family is not caught and does abort the batch; see the
corresponding counterexample below.) -/
theorem download_media_partial_failure (systems : List System)
    (oracle : System → FileRec → Except ApiError Bool) (d : String) (sys : System)
    (files : List FileRec)
    (hfind : find_system_by_dir systems d = some sys)
    (herr : ∀ f e, oracle sys f = Except.error e → isScraperErr e = true) :
    download_media systems oracle (Entry.dir d :: files.map Entry.file) =
      Except.ok
        ((files.filter (fun f => sys.suffixes.contains f.suffix)).countP
            (fun f => decide (oracle sys f = Except.ok true)),
         (files.filter (fun f => sys.suffixes.contains f.suffix)).length) := by
  have h := download_media_go_files systems oracle sys herr files 0 0
  simp only [download_media, download_media_go, hfind]
  simpa using h

/-- Witness for C2: three files where A succeeds, B raises a business-logic
(`ScraperError`) failure, and C has a suffix outside the system's set:
attempted = 2, successes = 1, and the run completes. -/
theorem download_media_partial_failure_witness :
    download_media [System.init ⟨4, [("nom_eu", "Nintendo 64,N64")], some "n64", none⟩]
        (fun _ f => if f.path = "B" then Except.error (.scraperError "boom" 0 none)
          else Except.ok true)
        [Entry.dir "N64", Entry.file ⟨"A", ".n64"⟩, Entry.file ⟨"B", ".n64"⟩,
         Entry.file ⟨"C", ".txt"⟩] =
      Except.ok (1, 2) := by
  have h := download_media_partial_failure
    [System.init ⟨4, [("nom_eu", "Nintendo 64,N64")], some "n64", none⟩]
    (fun _ f => if f.path = "B" then Except.error (.scraperError "boom" 0 none)
      else Except.ok true)
    "N64" (System.init ⟨4, [("nom_eu", "Nintendo 64,N64")], some "n64", none⟩)
    [⟨"A", ".n64"⟩, ⟨"B", ".n64"⟩, ⟨"C", ".txt"⟩]
    (by decide)
    (by
      intro f e h
      by_cases hp : f.path = "B"
      · simp only [hp, if_true] at h
        cases h
        rfl
      · simp [hp] at h)
  simp only [List.map_cons, List.map_nil] at h
  rw [h]
  decide

/-- Counterexample to C2 as literally stated ("on any error raised while
processing one file ... continues; no single file's failure aborts the
batch"): only `ScraperError` is caught, so a raw transport exception
raised for file B aborts the whole batch and no counters are reported. -/
theorem download_media_raw_error_aborts :
    download_media [System.init ⟨4, [("nom_eu", "Nintendo 64,N64")], some "n64", none⟩]
        (fun _ f => if f.path = "B" then Except.error (.rawTransport .connectTimeout)
          else Except.ok true)
        [Entry.dir "N64", Entry.file ⟨"A", ".n64"⟩, Entry.file ⟨"B", ".n64"⟩,
         Entry.file ⟨"C", ".n64"⟩] =
      Except.error (.rawTransport .connectTimeout) := by
  decide

/-- Claim C1 (the code, at the failing input): for a game with a non-empty
media list in which no entry matches both the requested media type and a
rom region, `download_rom_media` still returns `true` — the
`if True: return True` stub fires before the type/region test, so the
claimed selection criterion is not what the code computes. -/
theorem download_rom_media_stub_returns_true :
    download_rom_media "ScreenScraper"
        (System.init ⟨4, [("nom_eu", "Nintendo 64,N64")], some "n64", none⟩)
        (Rom.init "roms/n64/zelda.n64" []) "mixrbv2"
        (Except.ok ⟨"2138", ⟨"4", "Nintendo 64"⟩, [⟨"us", "Zelda"⟩],
          [⟨"ss", "jp", "png", "u"⟩], ⟨"9", "zelda.n64", "us"⟩⟩) =
      Except.ok true ∧
    ∀ m ∈ [MediaEntry.mk "ss" "jp" "png" "u"],
      ¬(m.type = "mixrbv2" ∧ (pySplit "us" ',').contains m.region) := by
  decide

/-- Claim C7 (amended): when the read timeout expires on a cache miss,
`api_call` fails with the transport `ScraperError` — no HTTP status, the
underlying exception attached as its cause.  (A connection timeout is not
caught; see the corresponding counterexample below.) -/
theorem api_call_read_timeout_wrapped (origin endpoint : String)
    (params : List (String × Json)) (rootdir : Option String) (fs : Fs)
    (hmiss : (CachedResource.init origin endpoint (some params) "json" rootdir).read fs =
      .miss) :
    (api_call origin endpoint params rootdir fs (.exc .readTimeout)).1 =
      Except.error (.scraperError "ReadTimeout" 0 (some .readTimeout)) := by
  simp [api_call, hmiss]

/-- Witness for C7: a read timeout against an empty cache is wrapped. -/
theorem api_call_read_timeout_wrapped_witness :
    (api_call "ScreenScraper" "jeuInfos.php" [] (some "cache") Fs.empty
        (.exc .readTimeout)).1 =
      Except.error (.scraperError "ReadTimeout" 0 (some .readTimeout)) :=
  api_call_read_timeout_wrapped "ScreenScraper" "jeuInfos.php" [] (some "cache") Fs.empty rfl

/-- Counterexample to C7 as stated: a connection timeout
(`requests.exceptions.ConnectTimeout`) is not a `ReadTimeout`, so the
`except` clause does not catch it — the raw transport exception escapes
`api_call` instead of a `TransportError`. -/
theorem api_call_connect_timeout_raw :
    (api_call "ScreenScraper" "jeuInfos.php" [] (some "cache") Fs.empty
        (.exc .connectTimeout)).1 =
      Except.error (.rawTransport .connectTimeout) ∧
    isScraperErr (.rawTransport .connectTimeout) = false :=
  ⟨rfl, rfl⟩

theorem length_mk_string (l : List Char) : (String.mk l).length = l.length := rfl

theorem toList_mk_string (l : List Char) : (String.mk l).toList = l := rfl

theorem natToHexUpper_length : ∀ (k n : Nat), n < 16 ^ (k + 1) →
    (natToHexUpper n).length ≤ k + 1 := by
  intro k
  induction k with
  | zero =>
    intro n h
    have h16 : n < 16 := by simpa using h
    rw [natToHexUpper, dif_pos h16]
    simp
  | succ k ih =>
    intro n h
    by_cases h16 : n < 16
    · rw [natToHexUpper, dif_pos h16]
      simp
    · rw [natToHexUpper, dif_neg h16, List.length_append]
      have hdiv : n / 16 < 16 ^ (k + 1) := by
        have hpow : 16 ^ (k + 1 + 1) = 16 * 16 ^ (k + 1) := by ring
        exact Nat.div_lt_of_lt_mul (hpow ▸ h)
      have := ih _ hdiv
      simp only [List.length_cons, List.length_nil]
      omega

theorem natToHexUpper_ne_nil (n : Nat) : natToHexUpper n ≠ [] := by
  by_cases h : n < 16
  · rw [natToHexUpper, dif_pos h]; simp
  · rw [natToHexUpper, dif_neg h]; simp

theorem hexDigitUpper_upper : ∀ m, m < 16 → isUpperHexChar (hexDigitUpper m) = true := by
  decide

theorem natToHexUpper_upperHex (n : Nat) :
    ∀ c ∈ natToHexUpper n, isUpperHexChar c = true := by
  induction n using Nat.strong_induction_on with
  | _ n ih =>
    intro c hc
    by_cases h : n < 16
    · rw [natToHexUpper, dif_pos h] at hc
      simp only [List.mem_singleton] at hc
      exact hc ▸ hexDigitUpper_upper n h
    · rw [natToHexUpper, dif_neg h] at hc
      rcases List.mem_append.mp hc with hc | hc
      · exact ih (n / 16) (Nat.div_lt_self (by omega) (by omega)) c hc
      · simp only [List.mem_singleton] at hc
        exact hc ▸ hexDigitUpper_upper _ (Nat.mod_lt _ (by omega))

theorem hex8upper_length (n : Nat) (h : n < 2 ^ 32) : (hex8upper n).length = 8 := by
  have hlen : (natToHexUpper n).length ≤ 8 := by
    refine natToHexUpper_length 7 n ?_
    calc n < 2 ^ 32 := h
    _ = 16 ^ (7 + 1) := by norm_num
  rw [hex8upper, length_mk_string, List.length_append, List.length_replicate]
  omega

theorem hex8upper_ne_empty (n : Nat) (h : n < 2 ^ 32) : hex8upper n ≠ "" := by
  intro heq
  have := hex8upper_length n h
  rw [heq] at this
  simp at this

theorem hex8upper_upperHex (n : Nat) :
    ∀ c ∈ (hex8upper n).toList, isUpperHexChar c = true := by
  intro c hc
  rw [hex8upper, toList_mk_string] at hc
  rcases List.mem_append.mp hc with hc | hc
  · have := List.eq_of_mem_replicate hc
    subst this
    decide
  · exact natToHexUpper_upperHex n c hc

theorem and_mask32_lt (n : Nat) : n &&& 0xFFFFFFFF < 2 ^ 32 := by
  have : n &&& 0xFFFFFFFF ≤ 0xFFFFFFFF := Nat.and_le_right
  omega

/-- Claim C8: the `crc32` checksum of a `Rom` instance is computed by
streaming the file once (in `CHUNK_SIZE` = 64 KiB chunks), memoized as an
8-character uppercase hexadecimal string, and every later access returns
the memoized value with no further file read; both accesses return equal
values. -/
theorem rom_crc32_memoized (p : String) (content : List Nat) :
    ((Rom.init p content).crc32.2.1.crc32).1 = (Rom.init p content).crc32.1 ∧
    (Rom.init p content).crc32.2.2 = 1 ∧
    ((Rom.init p content).crc32.2.1.crc32).2.2 = 0 ∧
    ((Rom.init p content).crc32.2.1.crc32).2.1 = (Rom.init p content).crc32.2.1 ∧
    (Rom.init p content).crc32.2.1.crc32Memo = (Rom.init p content).crc32.1 ∧
    ((Rom.init p content).crc32.1).length = 8 ∧
    ∀ c ∈ ((Rom.init p content).crc32.1).toList, isUpperHexChar c = true := by
  have hmask := and_mask32_lt
    ((chunksOf CHUNK_SIZE content).foldl (fun c chunk => zlib_crc32 chunk c) 0)
  have hne := hex8upper_ne_empty _ hmask
  have hfirst : (Rom.init p content).crc32 =
      (hex8upper ((chunksOf CHUNK_SIZE content).foldl (fun c chunk => zlib_crc32 chunk c) 0
          &&& 0xFFFFFFFF),
       { path := p, content := content,
         crc32Memo := hex8upper
           ((chunksOf CHUNK_SIZE content).foldl (fun c chunk => zlib_crc32 chunk c) 0
             &&& 0xFFFFFFFF) },
       1) := by
    simp [Rom.crc32, Rom.init]
  rw [hfirst]
  refine ⟨?_, rfl, ?_, ?_, rfl, hex8upper_length _ hmask, hex8upper_upperHex _⟩
  · simp [Rom.crc32, hne]
  · simp [Rom.crc32, hne]
  · simp [Rom.crc32, hne]

theorem sortJsonFields_eq_map (l : List (String × Json)) :
    sortJsonFields l = l.map (fun kv => (kv.1, sortJson kv.2)) := by
  induction l with
  | nil => rfl
  | cons kv kvs ih => simp [sortJsonFields, ih]

theorem mergeSort_keyLe_eq_of_perm (l1 l2 : List (String × Json)) (h : l1.Perm l2)
    (hnd : (l1.map Prod.fst).Nodup) :
    List.mergeSort l1 keyLe = List.mergeSort l2 keyLe := by
  have trans : ∀ a b c : String × Json, keyLe a b → keyLe b c → keyLe a c := by
    intro a b c hab hbc
    simp only [keyLe, decide_eq_true_eq] at hab hbc ⊢
    exact le_trans hab hbc
  have total : ∀ a b : String × Json, keyLe a b || keyLe b a := by
    intro a b
    simp only [keyLe, Bool.or_eq_true, decide_eq_true_eq]
    exact le_total a.1 b.1
  have hp1 := List.mergeSort_perm l1 keyLe
  have hp2 := List.mergeSort_perm l2 keyLe
  have hs1 := List.sorted_mergeSort trans total l1
  have hs2 := List.sorted_mergeSort trans total l2
  have hnd2 : (l2.map Prod.fst).Nodup := ((h.map Prod.fst).nodup_iff).mp hnd
  have hkeys1 : (List.mergeSort l1 keyLe).Pairwise (fun a b : String × Json => a.1 ≠ b.1) := by
    have hmap : ((List.mergeSort l1 keyLe).map Prod.fst).Nodup :=
      ((hp1.map Prod.fst).nodup_iff).mpr hnd
    exact List.pairwise_map.mp hmap
  have hkeys2 : (List.mergeSort l2 keyLe).Pairwise (fun a b : String × Json => a.1 ≠ b.1) := by
    have hmap : ((List.mergeSort l2 keyLe).map Prod.fst).Nodup :=
      ((hp2.map Prod.fst).nodup_iff).mpr hnd2
    exact List.pairwise_map.mp hmap
  have hstrict1 : (List.mergeSort l1 keyLe).Pairwise (fun a b : String × Json => a.1 < b.1) := by
    refine (hs1.and hkeys1).imp ?_
    intro a b hab
    exact lt_of_le_of_ne (by simpa [keyLe] using hab.1) hab.2
  have hstrict2 : (List.mergeSort l2 keyLe).Pairwise (fun a b : String × Json => a.1 < b.1) := by
    refine (hs2.and hkeys2).imp ?_
    intro a b hab
    exact lt_of_le_of_ne (by simpa [keyLe] using hab.1) hab.2
  haveI : IsAntisymm (String × Json) (fun a b => a.1 < b.1) :=
    ⟨fun a b h1 h2 => absurd (lt_trans h1 h2) (lt_irrefl _)⟩
  exact List.eq_of_perm_of_sorted (hp1.trans (h.trans hp2.symm)) hstrict1 hstrict2

/-- Claim C5: the derived cache key is a pure function of the
(origin, operation, params) triple, independent of the order in which the
parameter mapping was built: two parameter lists equal as mappings (a
permutation with duplicate-free keys) give the identical storage stem, and
hence the identical storage path. -/
theorem cache_key_order_independent (origin name filetype : String)
    (rootdir : Option String) (p1 p2 : List (String × Json)) (hperm : p1.Perm p2)
    (hnd : (p1.map Prod.fst).Nodup) :
    (CachedResource.init origin name (some p1) filetype rootdir).stem =
      (CachedResource.init origin name (some p2) filetype rootdir).stem ∧
    (CachedResource.init origin name (some p1) filetype rootdir).path =
      (CachedResource.init origin name (some p2) filetype rootdir).path := by
  have hperm' : (sortJsonFields p1).Perm (sortJsonFields p2) := by
    rw [sortJsonFields_eq_map, sortJsonFields_eq_map]
    exact hperm.map _
  have hnd' : ((sortJsonFields p1).map Prod.fst).Nodup := by
    rw [sortJsonFields_eq_map]
    simpa using hnd
  have hms := mergeSort_keyLe_eq_of_perm _ _ hperm' hnd'
  have hsort : sortJson (.arr [.str origin, .str name, .obj p1]) =
      sortJson (.arr [.str origin, .str name, .obj p2]) := by
    simp [sortJson, sortJsonList, hms]
  have hstem : (CachedResource.init origin name (some p1) filetype rootdir).stem =
      (CachedResource.init origin name (some p2) filetype rootdir).stem := by
    simp only [CachedResource.init, hashobj, pretty, if_pos, hsort]
  refine ⟨hstem, ?_⟩
  simp only [CachedResource.path, CachedResource.name, CachedResource.init] at hstem ⊢
  rw [hstem]

/-- Witness for C5: swapping two parameters yields the same stem and path. -/
theorem cache_key_order_independent_witness :
    (CachedResource.init "ScreenScraper" "jeuInfos.php"
        (some [("crc", Json.str "ABCD1234"), ("systemeid", Json.num 4)]) "json"
        (some "cache")).stem =
      (CachedResource.init "ScreenScraper" "jeuInfos.php"
        (some [("systemeid", Json.num 4), ("crc", Json.str "ABCD1234")]) "json"
        (some "cache")).stem ∧
    (CachedResource.init "ScreenScraper" "jeuInfos.php"
        (some [("crc", Json.str "ABCD1234"), ("systemeid", Json.num 4)]) "json"
        (some "cache")).path =
      (CachedResource.init "ScreenScraper" "jeuInfos.php"
        (some [("systemeid", Json.num 4), ("crc", Json.str "ABCD1234")]) "json"
        (some "cache")).path :=
  cache_key_order_independent "ScreenScraper" "jeuInfos.php" "json" (some "cache")
    [("crc", Json.str "ABCD1234"), ("systemeid", Json.num 4)]
    [("systemeid", Json.num 4), ("crc", Json.str "ABCD1234")]
    (List.Perm.swap ("systemeid", Json.num 4) ("crc", Json.str "ABCD1234") [])
    (by decide)

theorem string_mk_toList (s : String) : String.mk s.toList = s := rfl

theorem skipWs_cons_nonws {c : Char} (h : isJsonWs c = false) (cs : List Char) :
    skipWs (c :: cs) = c :: cs := by
  simp [skipWs, h]

theorem skipWs_append_ws {ws : List Char} (h : ∀ c ∈ ws, isJsonWs c = true)
    (cs : List Char) : skipWs (ws ++ cs) = skipWs cs := by
  induction ws with
  | nil => simp
  | cons w ws ih =>
    have hw := h w (List.mem_cons_self _ _)
    simp only [List.cons_append, skipWs, hw, if_true]
    exact ih (fun c hc => h c (List.mem_cons_of_mem _ hc))

theorem nlIndent_ws (iw lvl : Nat) : ∀ c ∈ nlIndent iw lvl, isJsonWs c = true := by
  intro c hc
  simp only [nlIndent, List.mem_cons] at hc
  rcases hc with hc | hc
  · subst hc; decide
  · have := List.eq_of_mem_replicate hc
    subst this; decide

theorem ne_of_isDigit {c : Char} (h : c.isDigit = true) (d : Char)
    (hd : d.isDigit = false) : c ≠ d := by
  intro he
  subst he
  rw [h] at hd
  cases hd

theorem digit_not_ws {c : Char} (h : c.isDigit = true) : isJsonWs c = false := by
  have h1 : c ≠ ' ' := ne_of_isDigit h ' ' (by decide)
  have h2 : c ≠ '\t' := ne_of_isDigit h '\t' (by decide)
  have h3 : c ≠ '\n' := ne_of_isDigit h '\n' (by decide)
  have h4 : c ≠ '\r' := ne_of_isDigit h '\r' (by decide)
  simp [isJsonWs, h1, h2, h3, h4]

theorem digitChar_isDigit : ∀ n, n < 10 → (Nat.digitChar n).isDigit = true := by decide

theorem digitChar_val : ∀ n, n < 10 → (Nat.digitChar n).toNat - 48 = n := by decide

theorem hexVal_digitChar : ∀ n, n < 16 → hexVal? (Nat.digitChar n) = some n := by decide

theorem natDigits_ne_nil (n : Nat) : natDigits n ≠ [] := by
  by_cases h : n < 10
  · rw [natDigits, dif_pos h]; simp
  · rw [natDigits, dif_neg h]; simp

theorem natDigits_digits (n : Nat) : ∀ c ∈ natDigits n, c.isDigit = true := by
  induction n using Nat.strong_induction_on with
  | _ n ih =>
    intro c hc
    by_cases h : n < 10
    · rw [natDigits, dif_pos h] at hc
      simp only [List.mem_singleton] at hc
      exact hc ▸ digitChar_isDigit n h
    · rw [natDigits, dif_neg h] at hc
      rcases List.mem_append.mp hc with hc | hc
      · exact ih (n / 10) (Nat.div_lt_self (by omega) (by omega)) c hc
      · simp only [List.mem_singleton] at hc
        exact hc ▸ digitChar_isDigit _ (Nat.mod_lt _ (by omega))

theorem parseNatAux_stop (acc : Nat) (rest : List Char) (h : headNonDigit rest) :
    parseNatAux acc rest = (acc, rest) := by
  cases rest with
  | nil => rfl
  | cons c cs =>
    simp only [headNonDigit] at h
    simp [parseNatAux, h]

theorem parseNatAux_natDigits :
    ∀ (n acc : Nat) (rest : List Char),
      parseNatAux acc (natDigits n ++ rest) =
        parseNatAux (acc * 10 ^ (natDigits n).length + n) rest := by
  intro n
  induction n using Nat.strong_induction_on with
  | _ n ih =>
    intro acc rest
    by_cases h : n < 10
    · rw [natDigits, dif_pos h]
      simp only [List.singleton_append, List.length_singleton, pow_one]
      simp [parseNatAux, digitChar_isDigit n h, digitChar_val n h]
    · rw [natDigits, dif_neg h]
      rw [List.append_assoc]
      rw [ih (n / 10) (Nat.div_lt_self (by omega) (by omega)) acc _]
      have hm : n % 10 < 10 := Nat.mod_lt _ (by omega)
      simp only [List.singleton_append, parseNatAux, digitChar_isDigit _ hm, if_true,
        digitChar_val _ hm, List.length_append, List.length_singleton]
      congr 1
      rw [pow_succ]
      have hdm := Nat.div_add_mod n 10
      calc (acc * 10 ^ (natDigits (n / 10)).length + n / 10) * 10 + n % 10
          = acc * (10 ^ (natDigits (n / 10)).length * 10) + (n / 10 * 10 + n % 10) := by ring
        _ = acc * (10 ^ (natDigits (n / 10)).length * 10) + n := by omega

theorem parseStrAux_escape :
    ∀ (l acc rest : List Char),
      parseStrAux acc (escapeList l ++ '"' :: rest) =
        some (String.mk (acc.reverse ++ l), rest) := by
  intro l
  induction l with
  | nil =>
    intro acc rest
    rw [escapeList, List.nil_append, parseStrAux.eq_def]
    simp
  | cons c cs ih =>
    intro acc rest
    by_cases hq : c = '"'
    · subst hq
      rw [escapeList, escapeChar, if_pos rfl]
      rw [show (['\\', '"'] ++ escapeList cs) ++ '"' :: rest =
        '\\' :: '"' :: (escapeList cs ++ '"' :: rest) by simp]
      rw [parseStrAux.eq_def]
      simp only [reduceIte, reduceCtorEq]
      rw [ih]
      simp
    · by_cases hb : c = '\\'
      · subst hb
        rw [escapeList, escapeChar, if_neg (by decide), if_pos rfl]
        rw [show (['\\', '\\'] ++ escapeList cs) ++ '"' :: rest =
          '\\' :: '\\' :: (escapeList cs ++ '"' :: rest) by simp]
        rw [parseStrAux.eq_def]
        simp only [reduceIte, reduceCtorEq]
        rw [ih]
        simp
      · by_cases h32 : c.toNat < 32
        · have hdiv : c.toNat / 16 < 16 := by omega
          have hmod : c.toNat % 16 < 16 := Nat.mod_lt _ (by omega)
          rw [escapeList, escapeChar, if_neg hq, if_neg hb, if_pos h32]
          rw [show (['\\', 'u', '0', '0', Nat.digitChar (c.toNat / 16),
              Nat.digitChar (c.toNat % 16)] ++ escapeList cs) ++ '"' :: rest =
            '\\' :: 'u' :: '0' :: '0' :: Nat.digitChar (c.toNat / 16) ::
              Nat.digitChar (c.toNat % 16) :: (escapeList cs ++ '"' :: rest) by simp]
          rw [parseStrAux.eq_def]
          simp only [reduceIte]
          rw [show hexVal? '0' = some 0 from by decide,
            hexVal_digitChar _ hdiv, hexVal_digitChar _ hmod]
          simp only []
          have hval : ((0 * 16 + 0) * 16 + c.toNat / 16) * 16 + c.toNat % 16 = c.toNat := by
            have := Nat.div_add_mod c.toNat 16
            omega
          rw [hval, Char.ofNat_toNat, ih]
          simp
        · rw [escapeList, escapeChar, if_neg hq, if_neg hb, if_neg h32]
          rw [show ([c] ++ escapeList cs) ++ '"' :: rest =
            c :: (escapeList cs ++ '"' :: rest) by simp]
          rw [parseStrAux.eq_def]
          simp only []
          rw [if_neg hq, if_neg hb, ih]
          simp

theorem render_ne_nil (iw ind : Nat) (v : Json) : render iw ind v ≠ [] := by
  cases v with
  | null => simp [render, show litChars "null" = ['n', 'u', 'l', 'l'] from rfl]
  | bool b =>
    cases b <;>
      simp [render, show litChars "true" = ['t', 'r', 'u', 'e'] from rfl,
        show litChars "false" = ['f', 'a', 'l', 's', 'e'] from rfl]
  | num n =>
    by_cases hn : n < 0
    · simp [render, renderInt, hn]
    · simp only [render, renderInt, if_neg hn]
      exact natDigits_ne_nil _
  | str s => simp [render, renderString]
  | arr l => cases l <;> simp [render]
  | obj l => cases l <;> simp [render]

theorem render_head_props (iw ind : Nat) (v : Json) :
    ∀ d ds, render iw ind v = d :: ds →
      isJsonWs d = false ∧ d ≠ ']' ∧ d ≠ '}' := by
  intro d ds heq
  cases v with
  | null =>
    rw [show render iw ind .null = 'n' :: ['u', 'l', 'l'] from rfl] at heq
    obtain ⟨h1, -⟩ := List.cons.injEq .. ▸ heq
    subst h1; exact ⟨by decide, by decide, by decide⟩
  | bool b =>
    cases b
    · rw [show render iw ind (.bool false) = 'f' :: ['a', 'l', 's', 'e'] from rfl] at heq
      obtain ⟨h1, -⟩ := List.cons.injEq .. ▸ heq
      subst h1; exact ⟨by decide, by decide, by decide⟩
    · rw [show render iw ind (.bool true) = 't' :: ['r', 'u', 'e'] from rfl] at heq
      obtain ⟨h1, -⟩ := List.cons.injEq .. ▸ heq
      subst h1; exact ⟨by decide, by decide, by decide⟩
  | num n =>
    by_cases hn : n < 0
    · simp only [render, renderInt, if_pos hn] at heq
      obtain ⟨h1, -⟩ := List.cons.injEq .. ▸ heq
      subst h1; exact ⟨by decide, by decide, by decide⟩
    · simp only [render, renderInt, if_neg hn] at heq
      have hdig : d.isDigit = true := by
        refine natDigits_digits n.natAbs d ?_
        rw [heq]
        exact List.mem_cons_self _ _
      exact ⟨digit_not_ws hdig, ne_of_isDigit hdig ']' (by decide),
        ne_of_isDigit hdig '}' (by decide)⟩
  | str s =>
    simp only [render, renderString] at heq
    obtain ⟨h1, -⟩ := List.cons.injEq .. ▸ heq
    subst h1; exact ⟨by decide, by decide, by decide⟩
  | arr l =>
    cases l <;> simp only [render] at heq <;>
      obtain ⟨h1, -⟩ := List.cons.injEq .. ▸ heq <;>
      (subst h1; exact ⟨by decide, by decide, by decide⟩)
  | obj l =>
    cases l <;> simp only [render] at heq <;>
      obtain ⟨h1, -⟩ := List.cons.injEq .. ▸ heq <;>
      (subst h1; exact ⟨by decide, by decide, by decide⟩)

mutual
theorem jsize_le_render : ∀ (iw ind : Nat) (v : Json), jsize v ≤ (render iw ind v).length
  | iw, ind, .null => by
    rw [show render iw ind .null = 'n' :: ['u', 'l', 'l'] from rfl]
    simp [jsize]
  | iw, ind, .bool b => by
    cases b
    · rw [show render iw ind (.bool false) = 'f' :: ['a', 'l', 's', 'e'] from rfl]
      simp [jsize]
    · rw [show render iw ind (.bool true) = 't' :: ['r', 'u', 'e'] from rfl]
      simp [jsize]
  | iw, ind, .num n => by
    by_cases hn : n < 0
    · simp [render, renderInt, hn, jsize]
    · have := List.length_pos.mpr (natDigits_ne_nil n.natAbs)
      simp only [render, renderInt, if_neg hn, jsize]
      omega
  | iw, ind, .str s => by simp [render, renderString, jsize]
  | iw, ind, .arr [] => by simp [render, jsize, jsizeList]
  | iw, ind, .arr (v :: vs) => by
    have h1 := jsize_le_render iw (ind + 1) v
    have h2 := jsize_le_renderArrTail iw (ind + 1) vs
    simp only [render, jsize, jsizeList, nlIndent, List.length_cons, List.length_append,
      List.length_replicate]
    omega
  | iw, ind, .obj [] => by simp [render, jsize, jsizeFields]
  | iw, ind, .obj (kv :: kvs) => by
    have h1 := jsize_le_render iw (ind + 1) kv.2
    have h2 := jsize_le_renderObjTail iw (ind + 1) kvs
    obtain ⟨k, v⟩ := kv
    simp only [render, jsize, jsizeFields, renderField, renderString, nlIndent,
      List.length_cons, List.length_append, List.length_replicate]
    simp only at h1
    omega
theorem jsize_le_renderArrTail :
    ∀ (iw ind : Nat) (vs : List Json), jsizeList vs ≤ (renderArrTail iw ind vs).length
  | iw, ind, [] => by simp [renderArrTail, jsizeList]
  | iw, ind, v :: vs => by
    have h1 := jsize_le_render iw ind v
    have h2 := jsize_le_renderArrTail iw ind vs
    simp only [renderArrTail, jsizeList, nlIndent, List.length_cons, List.length_append,
      List.length_replicate]
    omega
theorem jsize_le_renderObjTail :
    ∀ (iw ind : Nat) (kvs : List (String × Json)),
      jsizeFields kvs ≤ (renderObjTail iw ind kvs).length
  | iw, ind, [] => by simp [renderObjTail, jsizeFields]
  | iw, ind, kv :: kvs => by
    have h1 := jsize_le_render iw ind kv.2
    have h2 := jsize_le_renderObjTail iw ind kvs
    obtain ⟨k, v⟩ := kv
    simp only [renderObjTail, renderField, renderString, jsizeFields, nlIndent,
      List.length_cons, List.length_append, List.length_replicate]
    simp only at h1
    omega
end

theorem jsize_pos (v : Json) : 1 ≤ jsize v := by
  cases v <;> simp [jsize] <;> omega

theorem headNonDigit_cons {c : Char} (h : c.isDigit = false) (l : List Char) :
    headNonDigit (c :: l) := h

theorem headNonDigit_arrTail (iw ind ind' : Nat) (vs : List Json) (rest : List Char) :
    headNonDigit (renderArrTail iw ind vs ++ (nlIndent iw ind' ++ ']' :: rest)) := by
  cases vs with
  | nil => exact headNonDigit_cons (by decide) _
  | cons v vs =>
    simp only [renderArrTail, List.cons_append]
    exact headNonDigit_cons (by decide) _

theorem headNonDigit_objTail (iw ind ind' : Nat) (kvs : List (String × Json))
    (rest : List Char) :
    headNonDigit (renderObjTail iw ind kvs ++ (nlIndent iw ind' ++ '}' :: rest)) := by
  cases kvs with
  | nil => exact headNonDigit_cons (by decide) _
  | cons kv kvs =>
    simp only [renderObjTail, List.cons_append]
    exact headNonDigit_cons (by decide) _

mutual
theorem parseVal_render :
    ∀ (fuel : Nat) (v : Json) (iw ind : Nat) (ws rest : List Char),
      (∀ c ∈ ws, isJsonWs c = true) → headNonDigit rest → jsize v ≤ fuel →
      parseVal fuel (ws ++ render iw ind v ++ rest) = some (v, rest)
  | 0, v, _, _, _, _ => by
    intro _ _ hle
    have := jsize_pos v
    omega
  | fuel + 1, .null, iw, ind, ws, rest => by
    intro hws _ _
    have hin : ws ++ render iw ind .null ++ rest = ws ++ 'n' :: 'u' :: 'l' :: 'l' :: rest := by
      simp [render, show litChars "null" = ['n', 'u', 'l', 'l'] from rfl]
    have hsk : skipWs (ws ++ 'n' :: 'u' :: 'l' :: 'l' :: rest) =
        'n' :: 'u' :: 'l' :: 'l' :: rest := by
      rw [skipWs_append_ws hws, skipWs_cons_nonws (by decide)]
    rw [hin, parseVal.eq_def]
    simp only [hsk]
    simp
  | fuel + 1, .bool true, iw, ind, ws, rest => by
    intro hws _ _
    have hin : ws ++ render iw ind (.bool true) ++ rest =
        ws ++ 't' :: 'r' :: 'u' :: 'e' :: rest := by
      simp [render, show litChars "true" = ['t', 'r', 'u', 'e'] from rfl]
    have hsk : skipWs (ws ++ 't' :: 'r' :: 'u' :: 'e' :: rest) =
        't' :: 'r' :: 'u' :: 'e' :: rest := by
      rw [skipWs_append_ws hws, skipWs_cons_nonws (by decide)]
    rw [hin, parseVal.eq_def]
    simp only [hsk]
    simp
  | fuel + 1, .bool false, iw, ind, ws, rest => by
    intro hws _ _
    have hin : ws ++ render iw ind (.bool false) ++ rest =
        ws ++ 'f' :: 'a' :: 'l' :: 's' :: 'e' :: rest := by
      simp [render, show litChars "false" = ['f', 'a', 'l', 's', 'e'] from rfl]
    have hsk : skipWs (ws ++ 'f' :: 'a' :: 'l' :: 's' :: 'e' :: rest) =
        'f' :: 'a' :: 'l' :: 's' :: 'e' :: rest := by
      rw [skipWs_append_ws hws, skipWs_cons_nonws (by decide)]
    rw [hin, parseVal.eq_def]
    simp only [hsk]
    simp
  | fuel + 1, .str s, iw, ind, ws, rest => by
    intro hws _ _
    have hin : ws ++ render iw ind (.str s) ++ rest =
        ws ++ '"' :: (escapeList s.toList ++ '"' :: rest) := by
      simp [render, renderString]
    have hsk : skipWs (ws ++ '"' :: (escapeList s.toList ++ '"' :: rest)) =
        '"' :: (escapeList s.toList ++ '"' :: rest) := by
      rw [skipWs_append_ws hws, skipWs_cons_nonws (by decide)]
    rw [hin, parseVal.eq_def]
    simp only [hsk]
    simp only [reduceIte, reduceCtorEq]
    rw [parseStrAux_escape]
    simp [string_mk_toList]
  | fuel + 1, .num n, iw, ind, ws, rest => by
    intro hws hrest _
    have hnum0 : parseNatAux 0 (natDigits n.natAbs ++ rest) = (n.natAbs, rest) := by
      rw [parseNatAux_natDigits]
      simpa using parseNatAux_stop _ _ hrest
    obtain ⟨d, ds, hd⟩ := List.exists_cons_of_ne_nil (natDigits_ne_nil n.natAbs)
    have hdig : d.isDigit = true := by
      refine natDigits_digits n.natAbs d ?_
      rw [hd]
      exact List.mem_cons_self _ _
    have hnum : parseNatAux (d.toNat - 48) (ds ++ rest) = (n.natAbs, rest) := by
      rw [hd] at hnum0
      simpa [parseNatAux, hdig] using hnum0
    by_cases hn : n < 0
    · have hin : ws ++ render iw ind (.num n) ++ rest =
          ws ++ '-' :: (d :: (ds ++ rest)) := by
        simp [render, renderInt, hn, hd]
      have hsk : skipWs (ws ++ '-' :: (d :: (ds ++ rest))) = '-' :: (d :: (ds ++ rest)) := by
        rw [skipWs_append_ws hws, skipWs_cons_nonws (by decide)]
      rw [hin, parseVal.eq_def]
      simp only [hsk]
      simp only [reduceIte, reduceCtorEq]
      rw [if_pos hdig]
      simp only [hnum]
      have habs : -(n.natAbs : Int) = n := by omega
      have habs2 : -(|n| : Int) = n := by
        rw [abs_of_neg hn]
        omega
      simp [habs, habs2]
    · have hin : ws ++ render iw ind (.num n) ++ rest = ws ++ d :: (ds ++ rest) := by
        simp [render, renderInt, hn, hd]
      have hsk : skipWs (ws ++ d :: (ds ++ rest)) = d :: (ds ++ rest) := by
        rw [skipWs_append_ws hws, skipWs_cons_nonws (digit_not_ws hdig)]
      rw [hin, parseVal.eq_def]
      simp only [hsk]
      rw [if_neg (ne_of_isDigit hdig 'n' (by decide)),
        if_neg (ne_of_isDigit hdig 't' (by decide)),
        if_neg (ne_of_isDigit hdig 'f' (by decide)),
        if_neg (ne_of_isDigit hdig '"' (by decide)),
        if_neg (ne_of_isDigit hdig '[' (by decide)),
        if_neg (ne_of_isDigit hdig '{' (by decide)),
        if_neg (ne_of_isDigit hdig '-' (by decide)),
        if_pos hdig, hnum]
      have habs : (n.natAbs : Int) = n := by omega
      simp [habs]
  | fuel + 1, .arr [], iw, ind, ws, rest => by
    intro hws _ _
    have hin : ws ++ render iw ind (.arr []) ++ rest = ws ++ '[' :: ']' :: rest := by
      simp [render]
    have hsk : skipWs (ws ++ '[' :: ']' :: rest) = '[' :: ']' :: rest := by
      rw [skipWs_append_ws hws, skipWs_cons_nonws (by decide)]
    have hsk2 : skipWs (']' :: rest) = ']' :: rest := skipWs_cons_nonws (by decide) _
    rw [hin, parseVal.eq_def]
    simp only [hsk]
    simp only [reduceIte, reduceCtorEq]
    simp only [hsk2]
    simp
  | fuel + 1, .arr (v :: vs), iw, ind, ws, rest => by
    intro hws hrest hle
    have hle' : jsize v + jsizeList vs + 3 ≤ fuel := by
      simp only [jsize, jsizeList] at hle
      omega
    obtain ⟨d, ds, hd⟩ := List.exists_cons_of_ne_nil (render_ne_nil iw (ind + 1) v)
    obtain ⟨hdnws, hdne, -⟩ := render_head_props iw (ind + 1) v d ds hd
    have hin : ws ++ render iw ind (.arr (v :: vs)) ++ rest =
        ws ++ '[' :: (nlIndent iw (ind + 1) ++ (d :: (ds ++
          (renderArrTail iw (ind + 1) vs ++ (nlIndent iw ind ++ ']' :: rest))))) := by
      simp [render, hd]
    have hsk : skipWs (ws ++ '[' :: (nlIndent iw (ind + 1) ++ (d :: (ds ++
        (renderArrTail iw (ind + 1) vs ++ (nlIndent iw ind ++ ']' :: rest)))))) =
        '[' :: (nlIndent iw (ind + 1) ++ (d :: (ds ++
          (renderArrTail iw (ind + 1) vs ++ (nlIndent iw ind ++ ']' :: rest))))) := by
      rw [skipWs_append_ws hws, skipWs_cons_nonws (by decide)]
    have hsk2 : skipWs (nlIndent iw (ind + 1) ++ (d :: (ds ++
        (renderArrTail iw (ind + 1) vs ++ (nlIndent iw ind ++ ']' :: rest))))) =
        d :: (ds ++ (renderArrTail iw (ind + 1) vs ++ (nlIndent iw ind ++ ']' :: rest))) := by
      rw [skipWs_append_ws (nlIndent_ws iw (ind + 1)), skipWs_cons_nonws hdnws]
    rw [hin, parseVal.eq_def]
    simp only [hsk]
    simp only [reduceIte, reduceCtorEq]
    simp only [hsk2]
    rw [if_neg hdne]
    have hv := parseVal_render fuel v iw (ind + 1) []
      (renderArrTail iw (ind + 1) vs ++ (nlIndent iw ind ++ ']' :: rest))
      (by simp) (headNonDigit_arrTail iw (ind + 1) ind vs rest) (by omega)
    rw [hd] at hv
    simp only [List.nil_append, List.cons_append, List.append_assoc] at hv
    simp only [hv]
    have ht := parseArrTail_render fuel vs iw (ind + 1) ind rest (by omega)
    simp only [List.append_assoc] at ht
    simp only [ht]
    simp
  | fuel + 1, .obj [], iw, ind, ws, rest => by
    intro hws _ _
    have hin : ws ++ render iw ind (.obj []) ++ rest = ws ++ '{' :: '}' :: rest := by
      simp [render]
    have hsk : skipWs (ws ++ '{' :: '}' :: rest) = '{' :: '}' :: rest := by
      rw [skipWs_append_ws hws, skipWs_cons_nonws (by decide)]
    have hsk2 : skipWs ('}' :: rest) = '}' :: rest := skipWs_cons_nonws (by decide) _
    rw [hin, parseVal.eq_def]
    simp only [hsk]
    simp only [reduceIte, reduceCtorEq]
    simp only [hsk2]
    simp
  | fuel + 1, .obj (kv :: kvs), iw, ind, ws, rest => by
    intro hws hrest hle
    have hle' : jsize kv.2 + jsizeFields kvs + 4 ≤ fuel := by
      simp only [jsize, jsizeFields] at hle
      omega
    have hin : ws ++ render iw ind (.obj (kv :: kvs)) ++ rest =
        ws ++ '{' :: (nlIndent iw (ind + 1) ++ ('"' :: (escapeList kv.1.toList ++
          ('"' :: ':' :: (render iw (ind + 1) kv.2 ++
            (renderObjTail iw (ind + 1) kvs ++ (nlIndent iw ind ++ '}' :: rest))))))) := by
      obtain ⟨k, v⟩ := kv
      simp [render, renderField, renderString]
    have hsk : skipWs (ws ++ '{' :: (nlIndent iw (ind + 1) ++ ('"' :: (escapeList kv.1.toList ++
        ('"' :: ':' :: (render iw (ind + 1) kv.2 ++
          (renderObjTail iw (ind + 1) kvs ++ (nlIndent iw ind ++ '}' :: rest)))))))) =
        '{' :: (nlIndent iw (ind + 1) ++ ('"' :: (escapeList kv.1.toList ++
          ('"' :: ':' :: (render iw (ind + 1) kv.2 ++
            (renderObjTail iw (ind + 1) kvs ++ (nlIndent iw ind ++ '}' :: rest))))))) := by
      rw [skipWs_append_ws hws, skipWs_cons_nonws (by decide)]
    have hsk2 : skipWs (nlIndent iw (ind + 1) ++ ('"' :: (escapeList kv.1.toList ++
        ('"' :: ':' :: (render iw (ind + 1) kv.2 ++
          (renderObjTail iw (ind + 1) kvs ++ (nlIndent iw ind ++ '}' :: rest))))))) =
        '"' :: (escapeList kv.1.toList ++ ('"' :: ':' :: (render iw (ind + 1) kv.2 ++
          (renderObjTail iw (ind + 1) kvs ++ (nlIndent iw ind ++ '}' :: rest))))) := by
      rw [skipWs_append_ws (nlIndent_ws iw (ind + 1)), skipWs_cons_nonws (by decide)]
    rw [hin, parseVal.eq_def]
    simp only [hsk]
    simp only [reduceIte, reduceCtorEq]
    simp only [hsk2]
    rw [if_neg (by decide : ¬('"' : Char) = '}')]
    have hf := parseFieldAux_render fuel kv iw (ind + 1) []
      (renderObjTail iw (ind + 1) kvs ++ (nlIndent iw ind ++ '}' :: rest))
      (by simp) (headNonDigit_objTail iw (ind + 1) ind kvs rest) (by omega)
    have hfin : ([] : List Char) ++ renderField iw (ind + 1) kv ++
        (renderObjTail iw (ind + 1) kvs ++ (nlIndent iw ind ++ '}' :: rest)) =
        '"' :: (escapeList kv.1.toList ++ ('"' :: ':' :: (render iw (ind + 1) kv.2 ++
          (renderObjTail iw (ind + 1) kvs ++ (nlIndent iw ind ++ '}' :: rest))))) := by
      obtain ⟨k, v⟩ := kv
      simp [renderField, renderString]
    rw [hfin] at hf
    simp only [hf]
    have ht := parseObjTail_render fuel kvs iw (ind + 1) ind rest (by omega)
    simp only [List.append_assoc] at ht
    simp only [ht]
    simp
theorem parseArrTail_render :
    ∀ (fuel : Nat) (vs : List Json) (iw ind ind' : Nat) (rest : List Char),
      jsizeList vs + 1 ≤ fuel →
      parseArrTail fuel (renderArrTail iw ind vs ++ (nlIndent iw ind' ++ ']' :: rest)) =
        some (vs, rest)
  | 0, vs, _, _, _, _ => by
    intro hle
    omega
  | fuel + 1, [], iw, ind, ind', rest => by
    intro _
    have hsk : skipWs (nlIndent iw ind' ++ ']' :: rest) = ']' :: rest := by
      rw [skipWs_append_ws (nlIndent_ws iw ind'), skipWs_cons_nonws (by decide)]
    rw [show renderArrTail iw ind [] ++ (nlIndent iw ind' ++ ']' :: rest) =
      nlIndent iw ind' ++ ']' :: rest by simp [renderArrTail]]
    rw [parseArrTail.eq_def]
    simp only [hsk]
    simp
  | fuel + 1, v :: vs, iw, ind, ind', rest => by
    intro hle
    have hle' : jsize v + jsizeList vs + 2 ≤ fuel := by
      simp only [jsizeList] at hle
      omega
    have hsk : skipWs (',' :: (nlIndent iw ind ++ (render iw ind v ++
        (renderArrTail iw ind vs ++ (nlIndent iw ind' ++ ']' :: rest))))) =
        ',' :: (nlIndent iw ind ++ (render iw ind v ++
          (renderArrTail iw ind vs ++ (nlIndent iw ind' ++ ']' :: rest)))) :=
      skipWs_cons_nonws (by decide) _
    rw [show renderArrTail iw ind (v :: vs) ++ (nlIndent iw ind' ++ ']' :: rest) =
      ',' :: (nlIndent iw ind ++ (render iw ind v ++
        (renderArrTail iw ind vs ++ (nlIndent iw ind' ++ ']' :: rest))))
      by simp [renderArrTail]]
    rw [parseArrTail.eq_def]
    simp only [hsk]
    simp only [reduceIte, reduceCtorEq]
    have hv := parseVal_render fuel v iw ind (nlIndent iw ind)
      (renderArrTail iw ind vs ++ (nlIndent iw ind' ++ ']' :: rest))
      (nlIndent_ws iw ind) (headNonDigit_arrTail iw ind ind' vs rest) (by omega)
    simp only [List.append_assoc] at hv
    simp only [hv]
    have ht := parseArrTail_render fuel vs iw ind ind' rest (by omega)
    simp only [List.append_assoc] at ht
    simp only [ht]
    simp
theorem parseFieldAux_render :
    ∀ (fuel : Nat) (kv : String × Json) (iw ind : Nat) (ws rest : List Char),
      (∀ c ∈ ws, isJsonWs c = true) → headNonDigit rest → jsize kv.2 + 2 ≤ fuel →
      parseFieldAux fuel (ws ++ renderField iw ind kv ++ rest) = some (kv, rest)
  | 0, kv, _, _, _, _ => by
    intro _ _ hle
    omega
  | fuel + 1, kv, iw, ind, ws, rest => by
    intro hws hrest hle
    obtain ⟨k, v⟩ := kv
    have hsk : skipWs (ws ++ '"' :: (escapeList k.toList ++
        ('"' :: (':' :: (render iw ind v ++ rest))))) =
        '"' :: (escapeList k.toList ++ ('"' :: (':' :: (render iw ind v ++ rest)))) := by
      rw [skipWs_append_ws hws, skipWs_cons_nonws (by decide)]
    have hsk2 : skipWs (':' :: (render iw ind v ++ rest)) =
        ':' :: (render iw ind v ++ rest) :=
      skipWs_cons_nonws (by decide) _
    rw [show ws ++ renderField iw ind (k, v) ++ rest =
      ws ++ '"' :: (escapeList k.toList ++ ('"' :: (':' :: (render iw ind v ++ rest))))
      by simp [renderField, renderString]]
    rw [parseFieldAux.eq_def]
    simp only [hsk]
    simp only [reduceIte, reduceCtorEq]
    rw [show escapeList k.toList ++ ('"' :: (':' :: (render iw ind v ++ rest))) =
      escapeList k.toList ++ '"' :: (':' :: (render iw ind v ++ rest)) by simp]
    rw [parseStrAux_escape]
    simp only [List.nil_append, string_mk_toList]
    simp only [hsk2]
    simp only [reduceIte, reduceCtorEq]
    have hv := parseVal_render fuel v iw ind [] rest (by simp) hrest (by
      simp only at hle
      omega)
    simp only [List.nil_append] at hv
    simp only [hv]
    simp
theorem parseObjTail_render :
    ∀ (fuel : Nat) (kvs : List (String × Json)) (iw ind ind' : Nat) (rest : List Char),
      jsizeFields kvs + 1 ≤ fuel →
      parseObjTail fuel (renderObjTail iw ind kvs ++ (nlIndent iw ind' ++ '}' :: rest)) =
        some (kvs, rest)
  | 0, kvs, _, _, _, _ => by
    intro hle
    omega
  | fuel + 1, [], iw, ind, ind', rest => by
    intro _
    have hsk : skipWs (nlIndent iw ind' ++ '}' :: rest) = '}' :: rest := by
      rw [skipWs_append_ws (nlIndent_ws iw ind'), skipWs_cons_nonws (by decide)]
    rw [show renderObjTail iw ind [] ++ (nlIndent iw ind' ++ '}' :: rest) =
      nlIndent iw ind' ++ '}' :: rest by simp [renderObjTail]]
    rw [parseObjTail.eq_def]
    simp only [hsk]
    simp
  | fuel + 1, kv :: kvs, iw, ind, ind', rest => by
    intro hle
    have hle' : jsize kv.2 + jsizeFields kvs + 3 ≤ fuel := by
      simp only [jsizeFields] at hle
      omega
    have hsk : skipWs (',' :: (nlIndent iw ind ++ (renderField iw ind kv ++
        (renderObjTail iw ind kvs ++ (nlIndent iw ind' ++ '}' :: rest))))) =
        ',' :: (nlIndent iw ind ++ (renderField iw ind kv ++
          (renderObjTail iw ind kvs ++ (nlIndent iw ind' ++ '}' :: rest)))) :=
      skipWs_cons_nonws (by decide) _
    rw [show renderObjTail iw ind (kv :: kvs) ++ (nlIndent iw ind' ++ '}' :: rest) =
      ',' :: (nlIndent iw ind ++ (renderField iw ind kv ++
        (renderObjTail iw ind kvs ++ (nlIndent iw ind' ++ '}' :: rest))))
      by simp [renderObjTail]]
    rw [parseObjTail.eq_def]
    simp only [hsk]
    simp only [reduceIte, reduceCtorEq]
    have hf := parseFieldAux_render fuel kv iw ind (nlIndent iw ind)
      (renderObjTail iw ind kvs ++ (nlIndent iw ind' ++ '}' :: rest))
      (nlIndent_ws iw ind) (headNonDigit_objTail iw ind ind' kvs rest) (by omega)
    simp only [List.append_assoc] at hf
    simp only [hf]
    have ht := parseObjTail_render fuel kvs iw ind ind' rest (by omega)
    simp only [List.append_assoc] at ht
    simp only [ht]
    simp
end

theorem jsonLoads_pretty (v : Json) : jsonLoads (pretty v 2 false) = some v := by
  have hpretty : pretty v 2 false = String.mk (render 2 0 v) := by simp [pretty]
  have h := parseVal_render ((render 2 0 v).length + 1) v 2 0 [] []
    (by simp) (by simp [headNonDigit])
    (le_trans (jsize_le_render 2 0 v) (by omega))
  simp only [List.nil_append, List.append_nil] at h
  rw [hpretty]
  simp only [jsonLoads, length_mk_string, toList_mk_string, h, skipWs]
  simp

/-- Claim C6: for a JSON-typed cache entry with a configured root, writing a
payload and then reading the same (origin, operation, params, format) key
returns a value structurally equal to the original payload. -/
theorem cache_json_roundtrip (origin name : String)
    (params : Option (List (String × Json))) (root : String) (fs : Fs) (v : Json)
    (_hshape : (match v with
      | Json.obj _ => true
      | Json.arr _ => true
      | _ => false) = true) :
    (CachedResource.init origin name params "json" (some root)).read
        ((CachedResource.init origin name params "json" (some root)).write fs
          (CacheData.jsonVal v)) = ReadResult.jsonData v := by
  have htype : (CachedResource.init origin name params "json" (some root)).type = "json" := by
    simp only [CachedResource.init]
    decide
  have hpath : (CachedResource.init origin name params "json" (some root)).path =
      some (root ++ "/" ++ (CachedResource.init origin name params "json" (some root)).name) := by
    simp [CachedResource.path, CachedResource.init]
  simp only [CachedResource.read, CachedResource.write, CachedResource.is_json,
    CachedResource.is_text, htype, hpath]
  have hupd : Fs.update fs
      (root ++ "/" ++ (CachedResource.init origin name params "json" (some root)).name)
      (FileContent.text (pretty v 2 false))
      (root ++ "/" ++ (CachedResource.init origin name params "json" (some root)).name) =
      some (FileContent.text (pretty v 2 false)) := by
    simp [Fs.update]
  simp [hupd, jsonLoads_pretty]

/-- Witness for C6: a concrete envelope payload survives the write/read
round trip through the cache. -/
theorem cache_json_roundtrip_witness :
    (CachedResource.init "ScreenScraper" "jeuInfos.php" (some [("crc", Json.str "X")]) "json"
        (some "cache")).read
      ((CachedResource.init "ScreenScraper" "jeuInfos.php" (some [("crc", Json.str "X")])
          "json" (some "cache")).write Fs.empty
        (CacheData.jsonVal (Json.obj [("response", Json.num 7)]))) =
      ReadResult.jsonData (Json.obj [("response", Json.num 7)]) :=
  cache_json_roundtrip "ScreenScraper" "jeuInfos.php" (some [("crc", Json.str "X")]) "cache"
    Fs.empty (Json.obj [("response", Json.num 7)]) rfl
